import Mathlib

/-!
Shallow embedding of `src/client.rs` of libsql-client-rs: the derived
operations `execute` and `transaction` of the `DatabaseClient` trait
(implemented purely in terms of the abstract `batch`), the protocol codec
(`statements_to_string`, `json_to_query_result`), and the backend deduction
of `new_client`. Rust `String` bodies built or inspected by the client are
modelled as `List Char` (push_str is append, `String::pop` is
`List.dropLast`, `str::starts_with` is `List.isPrefixOf`); fallible
functions return `Except`; a possible index-out-of-bounds panic is made
explicit in `ExecOutcome`.
-/

/-- One SQL statement. External collaborator type: one unit of SQL text,
constructed by `Statement::new`. -/
structure Statement where
  sql : String
deriving DecidableEq, Repr

/-- Embeds `Statement::new`: builds a statement from raw SQL text. -/
def Statement.new (s : String) : Statement := ⟨s⟩

/-- Outcome of `execute`: either a single result, a forwarded batch error,
or the panic of `results.remove(0)` on an empty vector. -/
inductive ExecOutcome (E α : Type) where
  | ok (r : α)
  | err (e : E)
  | panic
deriving DecidableEq, Repr

/-- Embeds `DatabaseClient::execute` (client.rs lines 22-25): build the
singleton sequence, delegate to `batch`, return `results.remove(0)`.
`remove(0)` yields the first element and panics when the vector is empty.
The backend `batch` is abstract and is passed as a function; the result
type of a query is an arbitrary type `α`, the backend error type `E`. -/
def execute {E α : Type} (batch : List Statement → Except E (List α))
    (stmt : Statement) : ExecOutcome E α :=
  match batch [stmt] with
  | Except.error e => ExecOutcome.err e
  | Except.ok [] => ExecOutcome.panic
  | Except.ok (r :: _) => ExecOutcome.ok r

/-- Embeds `DatabaseClient::transaction` (client.rs lines 44-60): call
`batch` on `BEGIN` followed by the caller's statements followed by `END`;
on success `.skip(1)` the results, collect, then `ret.pop()` (drop the
last element if any) and return the rest. -/
def transaction {E α : Type} (batch : List Statement → Except E (List α))
    (stmts : List Statement) : Except E (List α) :=
  match batch (Statement.new "BEGIN" :: (stmts ++ [Statement.new "END"])) with
  | Except.error e => Except.error e
  | Except.ok rs => Except.ok (List.dropLast (rs.drop 1))

/-- Embeds `statements_to_string` (client.rs lines 163-177): start from the
body text `{"statements": [`, append each statement's rendered form
followed by a comma while counting, pop the final comma when at least one
statement was written, close with `]}`. The `Display` rendering of a
statement is external; it is passed as `enc`. Rust `String` is modelled
as `List Char`. -/
def statements_to_string (enc : Statement → List Char)
    (stmts : List Statement) : List Char × Nat :=
  let start := ("\x7b\"statements\": [").data
  let folded := stmts.foldl
    (fun (acc : List Char × Nat) stmt => (acc.1 ++ enc stmt ++ [','], acc.2 + 1))
    (start, 0)
  let body := if folded.2 > 0 then List.dropLast folded.1 else folded.1
  (body ++ ("]\x7d").data, folded.2)

/-- Models a `serde_json::Value` as the decoder observes it: either an
array of values, or any non-array value carrying its `Display`
rendering. -/
inductive JValue where
  | arr (elems : List JValue)
  | atom (rendered : String)
deriving Repr

/-- Rendering used by the `Display` interpolation of the non-array error
branch; an atom renders as the text it carries. -/
def JValue.render : JValue → String
  | JValue.atom s => s
  | JValue.arr _ => "[...]"

/-- Array-shape test on a response value. -/
def JValue.isArr : JValue → Bool
  | JValue.arr _ => true
  | JValue.atom _ => false

/-- Error text of the count-mismatch branch of `json_to_query_result`
(client.rs lines 186-188). -/
def countMismatchMsg (stmts_count : Nat) : String :=
  "Response array did not contain expected " ++ toString stmts_count ++ " results"

/-- Error text of the non-array branch of `json_to_query_result`
(client.rs line 199). -/
def shapeErrMsg (v : JValue) : String :=
  "Error: " ++ v.render

/-- Embeds the element loop of `json_to_query_result` (client.rs lines
190-196): parse each element at its positional index starting from `idx`,
pushing results in order; the first parse error aborts the whole loop.
The external `parse_query_result` collaborator is passed as `p`. -/
def parse_results_from {α : Type} (p : JValue → Nat → Except String α)
    (elems : List JValue) (idx : Nat) : Except String (List α) :=
  match elems with
  | [] => Except.ok []
  | x :: xs =>
    match p x idx with
    | Except.error e => Except.error e
    | Except.ok r =>
      match parse_results_from p xs (idx + 1) with
      | Except.error e => Except.error e
      | Except.ok rest => Except.ok (r :: rest)

/-- Embeds `json_to_query_result` (client.rs lines 179-201): a non-array
value fails with the shape error; an array whose length differs from
`stmts_count` fails with the count-mismatch error; otherwise every element
is parsed at its index in order, aborting on the first parse error. -/
def json_to_query_result {α : Type} (p : JValue → Nat → Except String α)
    (response_json : JValue) (stmts_count : Nat) : Except String (List α) :=
  match response_json with
  | JValue.arr results =>
    if results.length ≠ stmts_count then
      Except.error (countMismatchMsg stmts_count)
    else
      parse_results_from p results 0
  | e => Except.error (shapeErrMsg e)

/-- Compile-time feature flags governing which network backends exist in
the build (`reqwest_backend`, `workers_backend`, `spin_backend`). -/
structure Features where
  reqwest_backend : Bool
  workers_backend : Bool
  spin_backend : Bool
deriving DecidableEq, Repr

/-- Embeds the backend deduction of `new_client` (client.rs lines
116-132), used when `LIBSQL_CLIENT_BACKEND` is not set: a URL starting
with `http` picks `reqwest`, else `workers`, else `spin` among the
compiled-in backends, falling back to `local`; any other URL picks
`local`. The URL is a Rust string, modelled as `List Char`. -/
def deduce_backend (url : List Char) (f : Features) : String :=
  if ("http").data.isPrefixOf url then
    if f.reqwest_backend then "reqwest"
    else if f.workers_backend then "workers"
    else if f.spin_backend then "spin"
    else "local"
  else "local"

/-- Whether a backend kind named `b` is compiled into the build described
by `f` (the `cfg!(feature = ...)` tests of client.rs lines 118-123). -/
def compiled (f : Features) (b : String) : Bool :=
  if b = "reqwest" then f.reqwest_backend
  else if b = "workers" then f.workers_backend
  else if b = "spin" then f.spin_backend
  else false

/-- Unfolds the statement-accumulating fold of `statements_to_string`. -/
lemma foldl_body (enc : Statement → List Char) :
    ∀ (l : List Statement) (p : List Char) (n : Nat),
      List.foldl (fun (acc : List Char × Nat) stmt => (acc.1 ++ enc stmt ++ [','], acc.2 + 1)) (p, n) l
        = (p ++ (l.map (fun s => enc s ++ [','])).flatten, n + l.length) := by
  intro l
  induction l with
  | nil => intro p n; simp
  | cons x xs ih =>
    intro p n
    simp only [List.foldl_cons, List.map_cons, List.flatten_cons, ih]
    simp [List.append_assoc]
    omega

/-- Appending a separator to every chunk and flattening yields the
separator-intercalation followed by one trailing separator, for a
nonempty chunk list. -/
lemma flatten_comma (c : Char) : ∀ (l : List (List Char)), l ≠ [] →
    (l.map (fun s => s ++ [c])).flatten = List.intercalate [c] l ++ [c] := by
  intro l
  induction l with
  | nil => intro h; exact absurd rfl h
  | cons x xs ih =>
    intro _
    cases xs with
    | nil => simp [List.intercalate]
    | cons y t =>
      have hxs : y :: t ≠ [] := by simp
      have hstep := ih hxs
      simp only [List.map_cons, List.flatten_cons] at hstep ⊢
      simp only [List.intercalate] at hstep ⊢
      rw [hstep, List.intersperse_cons_cons, List.flatten_cons, List.flatten_cons]
      simp [List.append_assoc]

/-- Popping the trailing comma and closing the array brackets. -/
lemma dropLast_close (l : List Char) :
    ('[' :: (l ++ [','])).dropLast ++ [']', '}'] = '[' :: (l ++ [']', '}']) := by
  rw [show ('[' :: (l ++ [','])) = ('[' :: l) ++ [','] from by simp, List.dropLast_concat]
  simp

/-- Closed form of `statements_to_string`: the payload is the opening
object text, the comma-intercalated encoded statements, and the closing
text, and the count is the number of statements. -/
lemma statements_to_string_eq (enc : Statement → List Char) (stmts : List Statement) :
    statements_to_string enc stmts
      = (("\x7b\"statements\": [").data ++ List.intercalate [','] (stmts.map enc) ++ ("]\x7d").data,
         stmts.length) := by
  cases stmts with
  | nil => rfl
  | cons x xs =>
    simp only [statements_to_string, foldl_body]
    have hne : (x :: xs).map enc ≠ [] := by simp
    have hmm : ((x :: xs).map (fun s => enc s ++ [','])) = (((x :: xs).map enc).map (fun s => s ++ [','])) := by
      simp
    rw [hmm, flatten_comma ',' _ hne]
    simp [List.append_assoc]
    exact dropLast_close _

/-- When every element of `elems`, paired with its position counted from
`k`, parses successfully to the corresponding element of `rs`, the parse
loop succeeds with exactly `rs`. -/
lemma parse_results_from_ok {α : Type} (p : JValue → Nat → Except String α) :
    ∀ (elems : List JValue) (k : Nat) (rs : List α),
      (elems.enumFrom k).map (fun pr => p pr.2 pr.1) = rs.map Except.ok →
      parse_results_from p elems k = Except.ok rs := by
  intro elems
  induction elems with
  | nil =>
    intro k rs h
    cases rs with
    | nil => rfl
    | cons r t => simp at h
  | cons x xs ih =>
    intro k rs h
    rw [List.enumFrom_cons] at h
    cases rs with
    | nil => simp at h
    | cons r t =>
      simp only [List.map_cons, List.cons.injEq] at h
      obtain ⟨h1, h2⟩ := h
      have hrec := ih (k + 1) t h2
      simp only [parse_results_from, h1, hrec]

/-- When every element before `x` parses successfully and `x` itself
fails, the parse loop fails with exactly the error produced for `x` at
its position. -/
lemma parse_results_from_err {α : Type} (p : JValue → Nat → Except String α)
    (x : JValue) (post : List JValue) (e : String) :
    ∀ (pre : List JValue) (k : Nat),
      (∀ pr ∈ pre.enumFrom k, (p pr.2 pr.1).isOk = true) →
      p x (k + pre.length) = Except.error e →
      parse_results_from p (pre ++ x :: post) k = Except.error e := by
  intro pre
  induction pre with
  | nil =>
    intro k _ herr
    simp only [List.nil_append, parse_results_from]
    rw [show k + [].length = k from by simp] at herr
    rw [herr]
  | cons y ys ih =>
    intro k hok herr
    have hy : (p y k).isOk = true := by
      refine hok (k, y) ?_
      rw [List.enumFrom_cons]
      exact List.mem_cons_self _ _
    obtain ⟨r, hr⟩ : ∃ r, p y k = Except.ok r := by
      cases hpy : p y k with
      | error e2 => rw [hpy] at hy; simp [Except.isOk, Except.toBool] at hy
      | ok r => exact ⟨r, rfl⟩
    have hoktail : ∀ pr ∈ ys.enumFrom (k + 1), (p pr.2 pr.1).isOk = true := by
      intro pr hpr
      apply hok
      rw [List.enumFrom_cons]
      exact List.mem_cons_of_mem _ hpr
    have herr2 : p x ((k + 1) + ys.length) = Except.error e := by
      rw [show (k + 1) + ys.length = k + (y :: ys).length from by simp; omega]
      exact herr
    have hrec := ih (k + 1) hoktail herr2
    simp only [List.cons_append, parse_results_from, hr, List.append_eq, hrec]

/-- Claim C1: for every statement list, `transaction` calls `batch` with
exactly the extended sequence BEGIN, the caller's statements in order,
END (its outcome depends on `batch` only through that one argument), and
on a success carrying a result for BEGIN, the per-statement results, and
a result for END, it returns exactly the per-statement results in
original order, dropping the first (BEGIN) and last (END) results. -/
theorem transaction_begin_end {E α : Type}
    (b b' : List Statement → Except E (List α)) (stmts : List Statement)
    (rB rE : α) (rs : List α) :
    (b (Statement.new "BEGIN" :: (stmts ++ [Statement.new "END"]))
        = b' (Statement.new "BEGIN" :: (stmts ++ [Statement.new "END"])) →
      transaction b stmts = transaction b' stmts)
    ∧ (b (Statement.new "BEGIN" :: (stmts ++ [Statement.new "END"]))
        = Except.ok (rB :: (rs ++ [rE])) →
      transaction b stmts = Except.ok rs) := by
  constructor
  · intro hcall
    simp only [transaction, hcall]
  · intro hok
    simp only [transaction, hok]
    rw [List.drop_one, List.tail_cons, List.dropLast_concat]

/-- A backend returning one result `0` per submitted statement. -/
def bW : List Statement → Except String (List Nat) := fun l => Except.ok (l.map fun _ => 0)

/-- Witness for claim C1. -/
theorem transaction_begin_end_witness :
    transaction bW [Statement.new "a"] = Except.ok [0] :=
  (transaction_begin_end bW bW [Statement.new "a"] 0 0 [0]).2 rfl

/-- Claim C2: `execute` is `batch` on the singleton sequence with the
result at index 0 taken: when that batch call succeeds with a first
result, `execute` succeeds with it, and `execute` fails with an error
exactly when that batch call fails with that error. -/
theorem execute_eq_batch_singleton {E α : Type}
    (b : List Statement → Except E (List α)) (s : Statement) (r : α) (rest : List α) (e : E) :
    (b [s] = Except.ok (r :: rest) → execute b s = ExecOutcome.ok r)
    ∧ (b [s] = Except.error e → execute b s = ExecOutcome.err e)
    ∧ (∀ e2 : E, execute b s = ExecOutcome.err e2 ↔ b [s] = Except.error e2) := by
  refine ⟨fun h => by simp only [execute, h], fun h => by simp only [execute, h], fun e2 => ?_⟩
  constructor
  · intro h
    cases hb : b [s] with
    | error e3 =>
      simp only [execute, hb, ExecOutcome.err.injEq] at h
      rw [h]
    | ok l =>
      cases l with
      | nil => simp [execute, hb] at h
      | cons r2 t => simp [execute, hb] at h
  · intro h
    simp only [execute, h]

/-- A backend failing every batch call. -/
def bE : List Statement → Except String (List Nat) := fun _ => Except.error "boom"

/-- Witness for claim C2. -/
theorem execute_eq_batch_singleton_witness :
    execute bW (Statement.new "q") = ExecOutcome.ok 0
      ∧ execute bE (Statement.new "q") = ExecOutcome.err "boom" :=
  ⟨(execute_eq_batch_singleton bW (Statement.new "q") 0 [] "x").1 rfl,
   (execute_eq_batch_singleton bE (Statement.new "q") 0 [] "boom").2.1 rfl⟩

/-- Claim C9: under the capability contract that `batch` on a singleton
returns at least one result, `execute` never reaches the out-of-bounds
panic of `remove(0)`; a zero-result success is exactly the
programming-error (panic) condition, not a normal error result. -/
theorem execute_remove_safe {E α : Type}
    (b : List Statement → Except E (List α)) (s : Statement) (r : α) (rest : List α) :
    (b [s] = Except.ok (r :: rest) → execute b s ≠ ExecOutcome.panic)
    ∧ (b [s] = Except.ok [] → execute b s = ExecOutcome.panic) := by
  constructor
  · intro h
    simp only [execute, h]
    intro hcontra
    exact ExecOutcome.noConfusion hcontra
  · intro h
    simp only [execute, h]

/-- A backend violating the contract with a zero-result success. -/
def bZ : List Statement → Except String (List Nat) := fun _ => Except.ok []

/-- Witness for claim C9. -/
theorem execute_remove_safe_witness :
    execute bW (Statement.new "q") ≠ ExecOutcome.panic
      ∧ execute bZ (Statement.new "q") = ExecOutcome.panic :=
  ⟨(execute_remove_safe bW (Statement.new "q") 0 []).1 rfl,
   (execute_remove_safe bZ (Statement.new "q") 0 []).2 rfl⟩

/-- Claim C10: `transaction` is total over any successful batch result:
when `batch` succeeds with any list of `n` results, `transaction`
succeeds (it never panics and never errors) with the results after
dropping the first and the last, whose length is `n - 2` when `n ≥ 2`
and `0` when `n < 2`. -/
theorem transaction_total {E α : Type}
    (b : List Statement → Except E (List α)) (stmts : List Statement) (rs : List α)
    (hok : b (Statement.new "BEGIN" :: (stmts ++ [Statement.new "END"])) = Except.ok rs) :
    transaction b stmts = Except.ok (List.dropLast (rs.drop 1))
    ∧ (2 ≤ rs.length → (List.dropLast (rs.drop 1)).length = rs.length - 2)
    ∧ (rs.length < 2 → (List.dropLast (rs.drop 1)).length = 0) := by
  refine ⟨by simp only [transaction, hok], ?_, ?_⟩
  · intro _
    simp only [List.length_dropLast, List.length_drop]
    omega
  · intro _
    simp only [List.length_dropLast, List.length_drop]
    omega

/-- A backend returning a single result regardless of the batch size. -/
def bOne : List Statement → Except String (List Nat) := fun _ => Except.ok [7]

/-- Witness for claim C10. -/
theorem transaction_total_witness :
    transaction bOne [Statement.new "a"] = Except.ok []
      ∧ (([7] : List Nat).length < 2 → ([] : List Nat).length = 0) :=
  have h := transaction_total bOne [Statement.new "a"] [7] rfl
  ⟨h.1.trans (by simp), fun hlt => h.2.2 hlt⟩

/-- Claim C3: for every statement list, the encoded payload is the object
text opening the single statements array, the encoded statements
comma-separated with no trailing separator (the empty list yields an
empty array), the closing text, and the returned count is the number of
statements. -/
theorem statements_to_string_spec (enc : Statement → List Char) (stmts : List Statement) :
    statements_to_string enc stmts
      = (("\x7b\"statements\": [").data ++ List.intercalate [','] (stmts.map enc) ++ ("]\x7d").data,
         stmts.length) :=
  statements_to_string_eq enc stmts

/-- Claim C4: encoding a statement list and decoding a response array
whose length equals the returned count and whose elements parse in order
to `rs` yields exactly `rs`, equal in order and length to the input
statement list. -/
theorem encode_decode_roundtrip {α : Type} (enc : Statement → List Char)
    (p : JValue → Nat → Except String α) (stmts : List Statement)
    (elems : List JValue) (rs : List α)
    (hlen : elems.length = (statements_to_string enc stmts).2)
    (hp : (elems.enumFrom 0).map (fun pr => p pr.2 pr.1) = rs.map Except.ok) :
    json_to_query_result p (JValue.arr elems) (statements_to_string enc stmts).2 = Except.ok rs
      ∧ rs.length = stmts.length := by
  have hrs : rs.length = elems.length := by
    have := congrArg List.length hp
    simpa using this.symm
  have hcnt : (statements_to_string enc stmts).2 = stmts.length := by
    simp only [statements_to_string, foldl_body]
    omega
  constructor
  · have h0 : (statements_to_string enc stmts).2 = elems.length := hlen.symm
    rw [h0]
    simp only [json_to_query_result]
    rw [if_neg (by simp)]
    exact parse_results_from_ok p elems 0 rs hp
  · omega

/-- Statement encoding used by witnesses: the raw SQL text. -/
def encW : Statement → List Char := fun s => s.sql.data

/-- Result parser used by witnesses: returns the positional index. -/
def pW : JValue → Nat → Except String Nat := fun _ i => Except.ok i

/-- Witness for claim C4. -/
theorem encode_decode_roundtrip_witness :
    json_to_query_result pW (JValue.arr [JValue.atom "r"])
        (statements_to_string encW [Statement.new "a"]).2 = Except.ok [0]
      ∧ ([0] : List Nat).length = 1 :=
  have h := encode_decode_roundtrip encW pW [Statement.new "a"] [JValue.atom "r"] [0] rfl rfl
  ⟨h.1, h.2⟩

/-- Claim C5: decoding an array-shaped response whose length differs from
the expected count fails with the count-mismatch error; it never returns
a success, so it neither truncates nor pads. -/
theorem decode_count_mismatch {α : Type} (p : JValue → Nat → Except String α)
    (elems : List JValue) (expected : Nat)
    (h : elems.length ≠ expected) :
    json_to_query_result p (JValue.arr elems) expected
        = Except.error (countMismatchMsg expected)
      ∧ ∀ rs : List α, json_to_query_result p (JValue.arr elems) expected ≠ Except.ok rs := by
  have h1 : json_to_query_result p (JValue.arr elems) expected
      = Except.error (countMismatchMsg expected) := by
    simp only [json_to_query_result]
    rw [if_pos h]
  exact ⟨h1, fun rs hc => Except.noConfusion (h1.symm.trans hc)⟩

/-- Witness for claim C5. -/
theorem decode_count_mismatch_witness :
    json_to_query_result pW (JValue.arr []) 1 = Except.error (countMismatchMsg 1) :=
  (decode_count_mismatch pW [] 1 (by decide)).1

/-- Claim C6: decoding a response value that is not array-shaped fails
with the shape error, for every expected count; it never returns a
success value for a non-array input. -/
theorem decode_non_array {α : Type} (p : JValue → Nat → Except String α)
    (v : JValue) (expected : Nat) (h : v.isArr = false) :
    json_to_query_result p v expected = Except.error (shapeErrMsg v)
      ∧ ∀ rs : List α, json_to_query_result p v expected ≠ Except.ok rs := by
  have h1 : json_to_query_result p v expected = Except.error (shapeErrMsg v) := by
    cases v with
    | arr l => simp [JValue.isArr] at h
    | atom s => rfl
  exact ⟨h1, fun rs hc => Except.noConfusion (h1.symm.trans hc)⟩

/-- Witness for claim C6. -/
theorem decode_non_array_witness :
    json_to_query_result pW (JValue.atom "null") 3 = Except.error (shapeErrMsg (JValue.atom "null")) :=
  (decode_non_array pW (JValue.atom "null") 3 rfl).1

/-- Claim C7: decoding an array of the expected length whose elements
before position `i` all parse and whose element at position `i` fails,
fails as a whole with exactly the parse error produced at the offending
index `i` (the parser receives the index), returning no partial
results. -/
theorem decode_first_parse_error {α : Type} (p : JValue → Nat → Except String α)
    (pre post : List JValue) (x : JValue) (e : String)
    (hok : ∀ pr ∈ pre.enumFrom 0, (p pr.2 pr.1).isOk = true)
    (herr : p x pre.length = Except.error e) :
    json_to_query_result p (JValue.arr (pre ++ x :: post)) (pre ++ x :: post).length
      = Except.error e := by
  simp only [json_to_query_result]
  rw [if_neg (by simp)]
  exact parse_results_from_err p x post e pre 0 hok (by simpa using herr)

/-- Result parser used by the C7 witness: succeeds at index 0, fails
afterwards. -/
def pIdx : JValue → Nat → Except String Nat :=
  fun _ i => if i = 0 then Except.ok 1 else Except.error "parse failure"

/-- Witness for claim C7. -/
theorem decode_first_parse_error_witness :
    json_to_query_result pIdx (JValue.arr [JValue.atom "a", JValue.atom "b"]) 2
      = Except.error "parse failure" :=
  decode_first_parse_error pIdx [JValue.atom "a"] [] (JValue.atom "b") "parse failure"
    (by decide) rfl

/-- Claim C8: with no explicit backend kind, selection resolves by the
URL: the file URL file:///tmp/x.db resolves to the local backend for
every build, and the network URL https://host/db resolves to the first
backend compiled into the build in the fixed priority order reqwest,
workers, spin (falling back to local when none is compiled). -/
theorem backend_selection (f : Features) :
    deduce_backend ("file:///tmp/x.db").data f = "local"
    ∧ deduce_backend ("https://host/db").data f
        = (List.find? (compiled f) ["reqwest", "workers", "spin"]).getD "local" := by
  cases f with
  | mk r w s => cases r <;> cases w <;> cases s <;> exact ⟨by decide, by decide⟩
